import Mathlib

/-!
Verification of the user-process memory subsystem of the osos kernel
(page-fault handling, the scoped user-memory-access flag, the shared-page
registry, the SysV shared-memory manager, and the ELF/script loader).
Definitions are shallow embeddings of the Rust source; external
collaborators (ELF parser, file system, address-space primitives) are
passed in as parameters.
-/

deriving instance DecidableEq for Except

/-- Linux errno values used by the embedded syscalls. -/
inductive LinuxError
  | EINVAL
  | EACCES
  | ENOENT
  | ENOEXEC
  | EAGAIN
  | EEXIST
  | ENOMEM
  | EPERM
  | EFAULT
deriving DecidableEq, Repr

/-- Page-mapping permission flags (axhal MappingFlags), as a record of bits. -/
structure MappingFlags where
  read : Bool
  write : Bool
  execute : Bool
  user : Bool
deriving DecidableEq, Repr

/-- Access flags a are within permission flags b (no requested bit exceeds b). -/
def MappingFlags.withinFlags (a b : MappingFlags) : Bool :=
  (!a.read || b.read) && (!a.write || b.write) && (!a.execute || b.execute)

/-- Backend variant of a virtual-memory region (axmm Backend). -/
inductive RegionBackend
  | linear (paBase : Nat)
  | allocated (populate : Bool)
  | shared (name : String)
deriving DecidableEq, Repr

/-- A virtual-memory region: page-aligned range, permission flags, backend. -/
structure Region where
  start : Nat
  size : Nat
  flags : MappingFlags
  backend : RegionBackend
deriving DecidableEq, Repr

/-- Whether a region covers a virtual address. -/
def Region.covers (r : Region) (vaddr : Nat) : Bool :=
  decide (r.start ≤ vaddr) && decide (vaddr < r.start + r.size)

/-- Modelled from the spec: AddrSpace.handle_page_fault of the axmm module is
not under src, so the region-based fault resolution is taken from spec section
4.2 steps 2-4: look up the covering region (none means unresolvable), check the
requested access against the region flags (excess means unresolvable), then
resolve per backend: Linear never faults after mapping (unresolvable),
Allocated allocates and maps a fresh frame (resolved), Shared fetches the frame
from the registry entry (unresolvable if the entry is absent).
The registry parameter tells which shared names currently have an entry. -/
def aspace_handle_page_fault (regions : List Region) (registry : String → Bool)
    (vaddr : Nat) (access : MappingFlags) : Bool :=
  match regions.find? (fun r => r.covers vaddr) with
  | none => false
  | some r =>
    if !(access.withinFlags r.flags) then false
    else
      match r.backend with
      | .linear _ => false
      | .allocated _ => true
      | .shared name => registry name

/-- SIGSEGV signal number, as in linux_raw_sys. -/
def SIGSEGV : Nat := 11

/-- Outcome of the trap-layer page-fault handler handle_page_fault. -/
inductive PFOutcome
  | unhandled
  | resolved
  | terminated (sig : Nat)
deriving DecidableEq, Repr

/-- The trap-layer page-fault handler (src/src/mm.rs handle_page_fault):
a kernel-mode fault with the accessing-user-memory flag inactive returns
false (unhandled) at once; otherwise the address space resolves the fault
(resolve is the result of aspace.handle_page_fault); on failure the task is
terminated with SIGSEGV (do_exit) and the handler returns true. -/
def handle_page_fault (is_user accessing_user_mem : Bool) (resolve : Bool) :
    PFOutcome :=
  if !is_user && !accessing_user_mem then .unhandled
  else if resolve then .resolved
  else .terminated SIGSEGV

/-- The per-CPU ACCESSING_USER_MEM flag (true while scoped user access is
active). -/
abbrev UserMemFlag := Bool

/-- starry_core mm is_accessing_user_memory: reads the per-CPU flag. -/
def is_accessing_user_memory (s : UserMemFlag) : Bool := s

/-- starry_core mm access_user_memory: sets the per-CPU flag to true, runs the
closure f (which receives, and may further mutate, the flag state), then sets
the flag to false unconditionally - the entry value s is overwritten, not
saved and restored. The closure is modelled as a state transformer returning
its result and the flag state it leaves behind. -/
def access_user_memory {α : Type} (f : UserMemFlag → α × UserMemFlag)
    (_s : UserMemFlag) : α × UserMemFlag :=
  let r := f true
  (r.1, false)

/-- C3: a user-mode page fault at an address with no covering region, or whose
access exceeds the covering region's permission flags, resolves to false at
the address-space level (the access never silently succeeds) and the trap
handler converts this into termination of the task with SIGSEGV rather than
returning the failure to the faulting task. -/
theorem c3_user_fault_fatal (regions : List Region) (registry : String → Bool)
    (vaddr : Nat) (access : MappingFlags) (accessing : Bool)
    (h : regions.find? (fun r => r.covers vaddr) = none ∨
      ∃ r, regions.find? (fun r => r.covers vaddr) = some r ∧
        access.withinFlags r.flags = false) :
    aspace_handle_page_fault regions registry vaddr access = false ∧
    handle_page_fault true accessing
      (aspace_handle_page_fault regions registry vaddr access) =
      .terminated SIGSEGV := by
  have hres : aspace_handle_page_fault regions registry vaddr access = false := by
    rcases h with h | ⟨r, hr, hflags⟩
    · simp [aspace_handle_page_fault, h]
    · simp [aspace_handle_page_fault, hr, hflags]
  refine ⟨hres, ?_⟩
  rw [hres]
  rfl

/-- Witness for c3_user_fault_fatal: a fault at address 0 in an empty
address space. -/
theorem c3_user_fault_fatal_witness :
    aspace_handle_page_fault [] (fun _ => false) 0 ⟨true, false, false, true⟩ =
      false ∧
    handle_page_fault true false
      (aspace_handle_page_fault [] (fun _ => false) 0
        ⟨true, false, false, true⟩) = .terminated SIGSEGV :=
  c3_user_fault_fatal [] (fun _ => false) 0 ⟨true, false, false, true⟩ false
    (Or.inl rfl)

/-- C4: a kernel-mode page fault with the accessing-user-memory flag inactive
is reported unhandled immediately, independently of whatever the address-space
resolution would have produced (so the address space is never consulted);
with the flag active, the same kernel-mode fault proceeds to normal
resolution: resolved when the address space resolves it, fatal otherwise. -/
theorem c4_kernel_fault_gating (r r' : Bool) :
    handle_page_fault false false r = .unhandled ∧
    handle_page_fault false false r = handle_page_fault false false r' ∧
    handle_page_fault false true r =
      (if r then .resolved else .terminated SIGSEGV) := by
  refine ⟨rfl, rfl, ?_⟩
  cases r <;> rfl

/-- C10: access_user_memory runs its closure with the flag set to true, and on
return sets the flag to false unconditionally instead of restoring the entry
value; hence for a non-nested call the flag is true exactly during the
closure, but when a nested access_user_memory call returns (entry flag true,
because the outer scope is active) the flag reads false even though the outer
scope has not ended. -/
theorem c10_flag_cleared_unconditionally {α β : Type}
    (f : UserMemFlag → α × UserMemFlag) (g : UserMemFlag → β × UserMemFlag) :
    (∀ s, access_user_memory f s = ((f true).1, false)) ∧
    is_accessing_user_memory (access_user_memory g true).2 = false := by
  exact ⟨fun _ => rfl, rfl⟩

/-- An operation on the SHARED_PAGES registry for one fixed name: acquire is
Backend.map_shared (on its success path), release is Backend.unmap_shared. -/
inductive ShmOp
  | acquire
  | release
deriving DecidableEq, Repr

/-- The SHARED_PAGES registry projected to one fixed name: refCount is the
entry's ref_count when the entry is present, deallocs counts the
dealloc_shared_frames calls made for this name. -/
structure RegState where
  refCount : Option Nat
  deallocs : Nat
deriving DecidableEq, Repr

/-- One registry operation (axmm backend shared.rs): map_shared increments the
ref_count of an existing entry with fetch_add, or creates the entry with
ref_count 1 after allocating its frames; unmap_shared does nothing to an
absent entry, and otherwise decrements the ref_count with fetch_sub, removing
the entry and deallocating its frames exactly when the old count was 1.
An entry with count 0 never occurs (entries are created at 1 and removed on
the transition to 0), so the count-0 case below is dead and kept inert. -/
def regStep (s : RegState) : ShmOp → RegState
  | .acquire =>
    match s.refCount with
    | some n => { s with refCount := some (n + 1) }
    | none => { s with refCount := some 1 }
  | .release =>
    match s.refCount with
    | none => s
    | some 0 => s
    | some 1 => { refCount := none, deallocs := s.deallocs + 1 }
    | some (n + 2) => { s with refCount := some (n + 1) }

/-- Run a sequence of registry operations from the empty registry. -/
def regRun (ops : List ShmOp) : RegState := ops.foldl regStep ⟨none, 0⟩

/-- Number of acquire operations in a sequence. -/
def acqCount : List ShmOp → Nat
  | [] => 0
  | .acquire :: t => acqCount t + 1
  | .release :: t => acqCount t

/-- Number of release operations in a sequence. -/
def relCount : List ShmOp → Nat
  | [] => 0
  | .acquire :: t => relCount t
  | .release :: t => relCount t + 1

/-- Abstract counter transition: acquire increments, release decrements
(saturating at 0, matching a release that finds no entry). -/
def cntStep (c : Nat) : ShmOp → Nat
  | .acquire => c + 1
  | .release => c - 1

/-- Abstract counter run. -/
def cntRun (c : Nat) : List ShmOp → Nat
  | [] => c
  | op :: t => cntRun (cntStep c op) t

/-- Number of frame-deallocation events along a run started at count c:
one per release taken at count 1. -/
def deallocCount (c : Nat) : List ShmOp → Nat
  | [] => 0
  | op :: t =>
    (if op = .release ∧ c = 1 then 1 else 0) + deallocCount (cntStep c op) t

/-- Registry entry corresponding to an abstract count. -/
def stateOfCount (c : Nat) : Option Nat := if c = 0 then none else some c

/-- Every prefix of the sequence has at least as many acquires as releases,
starting from c outstanding references. -/
def BalancedFrom (c : Nat) (ops : List ShmOp) : Prop :=
  ∀ n ≤ ops.length, relCount (ops.take n) ≤ c + acqCount (ops.take n)

/-- Every release in the sequence matches an earlier acquire. -/
def BalancedOps (ops : List ShmOp) : Prop := BalancedFrom 0 ops

instance (c : Nat) (ops : List ShmOp) : Decidable (BalancedFrom c ops) := by
  unfold BalancedFrom
  infer_instance

instance (ops : List ShmOp) : Decidable (BalancedOps ops) := by
  unfold BalancedOps
  infer_instance

theorem regRun_foldl_eq (ops : List ShmOp) : ∀ (c d : Nat),
    ops.foldl regStep ⟨stateOfCount c, d⟩ =
      ⟨stateOfCount (cntRun c ops), d + deallocCount c ops⟩ := by
  induction ops with
  | nil => intro c d; simp [cntRun, deallocCount]
  | cons op t ih =>
    intro c d
    cases op with
    | acquire =>
      cases c with
      | zero =>
        simpa [regStep, stateOfCount, cntRun, cntStep, deallocCount] using ih 1 d
      | succ n =>
        simpa [regStep, stateOfCount, cntRun, cntStep, deallocCount]
          using ih (n + 2) d
    | release =>
      cases c with
      | zero =>
        simpa [regStep, stateOfCount, cntRun, cntStep, deallocCount] using ih 0 d
      | succ n =>
        cases n with
        | zero =>
          have h0 := ih 0 (d + 1)
          have e1 : (ShmOp.release :: t).foldl regStep ⟨stateOfCount 1, d⟩
              = t.foldl regStep ⟨stateOfCount 0, d + 1⟩ := rfl
          have e2 : cntRun 1 (ShmOp.release :: t) = cntRun 0 t := rfl
          have e3 : deallocCount 1 (ShmOp.release :: t) = 1 + deallocCount 0 t := by
            simp [deallocCount, cntStep]
          rw [e1, h0, e2, e3]
          have e4 : d + 1 + deallocCount 0 t = d + (1 + deallocCount 0 t) := by
            omega
          rw [e4]
        | succ m =>
          have h0 := ih (m + 1) d
          have e1 : (ShmOp.release :: t).foldl regStep ⟨stateOfCount (m + 2), d⟩
              = t.foldl regStep ⟨stateOfCount (m + 1), d⟩ := rfl
          have e2 : cntRun (m + 2) (ShmOp.release :: t) = cntRun (m + 1) t := rfl
          have e3 : deallocCount (m + 2) (ShmOp.release :: t)
              = deallocCount (m + 1) t := by
            simp [deallocCount, cntStep]
          rw [e1, h0, e2, e3]

theorem balancedFrom_cons {c : Nat} {op : ShmOp} {t : List ShmOp}
    (h : BalancedFrom c (op :: t)) : BalancedFrom (cntStep c op) t := by
  intro n hn
  have h1 := h (n + 1) (by simpa using Nat.succ_le_succ hn)
  cases op with
  | acquire =>
    simp only [List.take_succ_cons, relCount, acqCount, cntStep] at h1 ⊢
    omega
  | release =>
    have hc : 1 ≤ c := by
      have := h 1 (by simp)
      simpa [relCount, acqCount] using this
    simp only [List.take_succ_cons, relCount, acqCount, cntStep] at h1 ⊢
    omega

theorem cntRun_eq (ops : List ShmOp) : ∀ c, BalancedFrom c ops →
    cntRun c ops = c + acqCount ops - relCount ops ∧
    relCount ops ≤ c + acqCount ops := by
  induction ops with
  | nil => intro c _; simp [cntRun, acqCount, relCount]
  | cons op t ih =>
    intro c h
    have ht := ih (cntStep c op) (balancedFrom_cons h)
    cases op with
    | acquire =>
      simp only [cntRun, cntStep, acqCount, relCount] at ht ⊢
      omega
    | release =>
      have hc : 1 ≤ c := by
        have := h 1 (by simp)
        simpa [relCount, acqCount] using this
      simp only [cntRun, cntStep, acqCount, relCount] at ht ⊢
      omega

theorem deallocCount_append_single (op : ShmOp) :
    ∀ (l : List ShmOp) (c : Nat),
    deallocCount c (l ++ [op]) =
      deallocCount c l + (if op = .release ∧ cntRun c l = 1 then 1 else 0) := by
  intro l
  induction l with
  | nil => intro c; simp [deallocCount, cntRun]
  | cons x t ih =>
    intro c
    have h0 := ih (cntStep c x)
    simp only [List.cons_append, List.append_eq, deallocCount, cntRun] at h0 ⊢
    rw [h0]
    omega

theorem balanced_take {ops : List ShmOp} (h : BalancedOps ops) (k : Nat) :
    BalancedOps (ops.take k) := by
  intro n hn
  rw [List.take_take]
  have hlen : (ops.take k).length ≤ ops.length := by
    simp only [List.length_take]
    omega
  exact h (min n k)
    (le_trans (Nat.min_le_left n k) (le_trans hn hlen))

theorem regRun_eq_abs (l : List ShmOp) :
    regRun l = ⟨stateOfCount (cntRun 0 l), deallocCount 0 l⟩ := by
  have h := regRun_foldl_eq l 0 0
  simpa [regRun, stateOfCount] using h

theorem acqCount_append (l1 l2 : List ShmOp) :
    acqCount (l1 ++ l2) = acqCount l1 + acqCount l2 := by
  induction l1 with
  | nil => simp [acqCount]
  | cons x t ih => cases x <;> (simp [acqCount, ih]; try omega)

theorem relCount_append (l1 l2 : List ShmOp) :
    relCount (l1 ++ l2) = relCount l1 + relCount l2 := by
  induction l1 with
  | nil => simp [relCount]
  | cons x t ih => cases x <;> (simp [relCount, ih]; try omega)

/-- C2: for any sequence of map_shared (acquire) and unmap_shared (release)
operations on the shared-page registry for one fixed name, in which every
release matches an earlier acquire, the registry entry for the name exists
exactly when the net acquire count (acquires minus releases) is positive, and
the entry's frames are deallocated exactly at the operations that bring the
net count to zero: the cumulative deallocation count rises by one precisely
at such a release and is unchanged at every other operation. -/
theorem c2_refcount_conservation (ops : List ShmOp) (h : BalancedOps ops) :
    ((regRun ops).refCount.isSome ↔ relCount ops < acqCount ops) ∧
    (∀ i (hi : i < ops.length),
      (regRun (ops.take (i + 1))).deallocs =
        (regRun (ops.take i)).deallocs +
          (if ops[i] = ShmOp.release ∧
              acqCount (ops.take (i + 1)) = relCount (ops.take (i + 1))
            then 1 else 0)) := by
  constructor
  · rw [regRun_eq_abs]
    have hc := cntRun_eq ops 0 h
    simp only [Nat.zero_add] at hc
    rcases hc with ⟨he, hle⟩
    rw [he]
    unfold stateOfCount
    by_cases h0 : acqCount ops - relCount ops = 0
    · rw [if_pos h0]
      simp only [Option.isSome_none, Bool.false_eq_true, false_iff]
      omega
    · rw [if_neg h0]
      simp only [Option.isSome_some, true_iff]
      omega
  · intro i hi
    have htake : ops.take (i + 1) = ops.take i ++ [ops[i]] := by
      rw [List.take_succ]
      simp [List.getElem?_eq_getElem hi]
    have hbt := cntRun_eq (ops.take i) 0 (balanced_take h i)
    simp only [Nat.zero_add] at hbt
    rcases hbt with ⟨hci, hlei⟩
    have hiff : (ops[i] = ShmOp.release ∧ cntRun 0 (ops.take i) = 1) ↔
        (ops[i] = ShmOp.release ∧
          acqCount (ops.take (i + 1)) = relCount (ops.take (i + 1))) := by
      constructor
      · rintro ⟨hop, hx⟩
        refine ⟨hop, ?_⟩
        rw [htake, acqCount_append, relCount_append, hop]
        simp only [acqCount, relCount]
        omega
      · rintro ⟨hop, hy⟩
        refine ⟨hop, ?_⟩
        rw [htake, acqCount_append, relCount_append, hop] at hy
        simp only [acqCount, relCount] at hy
        omega
    calc (regRun (ops.take (i + 1))).deallocs
        = deallocCount 0 (ops.take (i + 1)) := by rw [regRun_eq_abs]
      _ = deallocCount 0 (ops.take i) +
            (if ops[i] = ShmOp.release ∧ cntRun 0 (ops.take i) = 1
              then 1 else 0) := by
          rw [htake, deallocCount_append_single]
      _ = deallocCount 0 (ops.take i) +
            (if ops[i] = ShmOp.release ∧
                acqCount (ops.take (i + 1)) = relCount (ops.take (i + 1))
              then 1 else 0) := by
          rw [if_congr hiff rfl rfl]
      _ = (regRun (ops.take i)).deallocs +
            (if ops[i] = ShmOp.release ∧
                acqCount (ops.take (i + 1)) = relCount (ops.take (i + 1))
              then 1 else 0) := by
          rw [regRun_eq_abs]

/-- Concrete operation sequence used to witness c2_refcount_conservation. -/
def c2ops : List ShmOp :=
  [ShmOp.acquire, ShmOp.acquire, ShmOp.release, ShmOp.release, ShmOp.acquire]

/-- Witness for c2_refcount_conservation at a concrete balanced sequence. -/
theorem c2_refcount_conservation_witness :
    BalancedOps c2ops ∧
    (((regRun c2ops).refCount.isSome ↔ relCount c2ops < acqCount c2ops) ∧
    (∀ i (hi : i < c2ops.length),
      (regRun (c2ops.take (i + 1))).deallocs =
        (regRun (c2ops.take i)).deallocs +
          (if c2ops[i] = ShmOp.release ∧
              acqCount (c2ops.take (i + 1)) = relCount (c2ops.take (i + 1))
            then 1 else 0))) :=
  ⟨by decide, c2_refcount_conservation c2ops (by decide)⟩

/-- SHM_RDONLY flag (octal 010000). -/
def SHM_RDONLY : Int := 0o010000

/-- SHM_RND flag (octal 020000). -/
def SHM_RND : Int := 0o020000

/-- SHM_EXEC flag (octal 100000). -/
def SHM_EXEC : Int := 0o100000

/-- SysV shared-memory segment descriptor (ShmSegment in the api shm
module). -/
structure ShmSegment where
  key : Int
  size : Nat
  perm : Nat
  owner_uid : Nat
  owner_gid : Nat
  creator_uid : Nat
  creator_gid : Nat
  creator_pid : Nat
  last_pid : Nat
  attach_count : Nat
  change_time : Nat
  attach_time : Nat
  detach_time : Nat
  phys_addr : Nat
  marked_for_removal : Bool
deriving DecidableEq, Repr

/-- ShmSegment.check_permission: the owner branch applies when owner_uid
matches, else the group branch when owner_gid matches, else the other
branch; each branch tests exactly one bit of its permission triple - the
write bit (2) when want_write, the read bit (4) otherwise. -/
def ShmSegment.check_permission (seg : ShmSegment) (uid gid : Nat)
    (want_write : Bool) : Bool :=
  if seg.owner_uid = uid then
    let owner_perm := (seg.perm >>> 6) &&& 0o7
    if want_write then decide (owner_perm &&& 0o2 ≠ 0)
    else decide (owner_perm &&& 0o4 ≠ 0)
  else if seg.owner_gid = gid then
    let group_perm := (seg.perm >>> 3) &&& 0o7
    if want_write then decide (group_perm &&& 0o2 ≠ 0)
    else decide (group_perm &&& 0o4 ≠ 0)
  else
    let other_perm := seg.perm &&& 0o7
    if want_write then decide (other_perm &&& 0o2 ≠ 0)
    else decide (other_perm &&& 0o4 ≠ 0)

/-- First-match lookup in an association list (models BTreeMap get). -/
def alLookup {α β : Type} [DecidableEq α] (k : α) : List (α × β) → Option β
  | [] => none
  | (k', v) :: t => if k = k' then some v else alLookup k t

/-- Insert or overwrite a binding (models BTreeMap insert; keys stay
unique). -/
def alInsert {α β : Type} [DecidableEq α] (k : α) (v : β) :
    List (α × β) → List (α × β)
  | [] => [(k, v)]
  | (k', v') :: t => if k = k' then (k, v) :: t else (k', v') :: alInsert k v t

/-- Remove a binding (models BTreeMap remove; keys are unique so the first
match is the only one). -/
def alRemove {α β : Type} [DecidableEq α] (k : α) :
    List (α × β) → List (α × β)
  | [] => []
  | (k', v') :: t => if k = k' then t else (k', v') :: alRemove k t

/-- Global SHM manager (ShmManager): the id-indexed segment table, the next
id, and per-id attachment records mapping each attach address to the id the
source stores there (the attaching task's id; for a single-threaded process
this equals the process id that sys_shmdt later compares against).
Association lists model the BTreeMaps; the theorems below do not depend on
iteration order. -/
structure ShmManager where
  segments : List (Int × ShmSegment)
  next_id : Int
  attachments : List (Int × List (Nat × Nat))
deriving DecidableEq, Repr

/-- Manager state plus a counter of aspace.dealloc_shared invocations
(frees of a segment's physical backing). -/
structure ShmSys where
  mgr : ShmManager
  deallocCalls : Nat
deriving DecidableEq, Repr

/-- memory_addr align_up_4k. -/
def align_up_4k (n : Nat) : Nat := (n + 4095) / 4096 * 4096

/-- External collaborators of sys_shmat: the address chosen by
aspace.find_free_area when no hint is given (none models ENOMEM), the result
of aspace.map_linear at a given address, the physical address returned by
aspace.alloc_shared on a first-ever attach (none models ENOMEM), and the
wall-clock time. -/
structure AttachEnv where
  findFree : Option Nat
  mapOk : Nat → Bool
  allocShared : Option Nat
  time : Nat

/-- Attach-address selection of sys_shmat: find_free_area when the hint is
0; otherwise the hint, rounded down to the 4K SHMLBA boundary under SHM_RND,
and then required to be 4K-aligned. -/
def shmatAddr (env : AttachEnv) (shmaddr : Nat) (shmflg : Int) :
    Except LinuxError Nat :=
  if shmaddr = 0 then
    match env.findFree with
    | some a => .ok a
    | none => .error .ENOMEM
  else
    let addr := if Int.land shmflg SHM_RND ≠ 0 then shmaddr - shmaddr % 4096
      else shmaddr
    if addr % 4096 = 0 then .ok addr else .error .EINVAL

/-- Lazy first-attach allocation in sys_shmat: when the segment's phys_addr
is 0 the backing is allocated and phys_addr written back through the shared
segment handle (persisting even if the subsequent map fails), otherwise the
existing backing is reused. -/
def shmatPhys (env : AttachEnv) (st : ShmSys) (shmid : Int)
    (seg : ShmSegment) : Option (Nat × ShmSys) :=
  if seg.phys_addr = 0 then
    match env.allocShared with
    | none => none
    | some pa =>
      some (pa, { st with mgr := { st.mgr with
        segments := alInsert shmid { seg with phys_addr := pa }
          st.mgr.segments } })
  else some (seg.phys_addr, st)

/-- Record an attachment: manager.attachments.entry(shmid)
.or_insert_with(BTreeMap::new).insert(attach_addr, id). -/
def attachInsert (atts : List (Int × List (Nat × Nat))) (shmid : Int)
    (addr : Nat) (pid : Nat) : List (Int × List (Nat × Nat)) :=
  match alLookup shmid atts with
  | some m => alInsert shmid (alInsert addr pid m) atts
  | none => atts ++ [(shmid, [(addr, pid)])]

/-- sys_shmat (api shm module): look up the segment by id (EINVAL if
unknown), check a single permission - write unless SHM_RDONLY was given,
read otherwise - against uid 0 / gid 0 (the source hard-codes both), choose
the attach address, lazily allocate the physical backing on first attach,
map it linearly (ENOMEM on failure, with the lazily written phys_addr kept),
then increment attach_count, stamp attach_time and record the
(address, id) attachment. Returns the error or attach address together with
the state after the call. -/
def sys_shmat (env : AttachEnv) (st : ShmSys) (pid : Nat) (shmid : Int)
    (shmaddr : Nat) (shmflg : Int) : Except LinuxError Nat × ShmSys :=
  match alLookup shmid st.mgr.segments with
  | none => (.error .EINVAL, st)
  | some seg =>
    let want_write := decide (Int.land shmflg SHM_RDONLY = 0)
    if seg.check_permission 0 0 want_write = false then (.error .EACCES, st)
    else
      match shmatAddr env shmaddr shmflg with
      | .error e => (.error e, st)
      | .ok attach_addr =>
        match shmatPhys env st shmid seg with
        | none => (.error .ENOMEM, st)
        | some (pa, st1) =>
          if env.mapOk attach_addr = false then (.error .ENOMEM, st1)
          else
            let seg2 : ShmSegment := { seg with
              phys_addr := pa,
              attach_count := seg.attach_count + 1,
              attach_time := env.time }
            (.ok attach_addr,
              { st1 with mgr :=
                { segments := alInsert shmid seg2 st1.mgr.segments,
                  next_id := st1.mgr.next_id,
                  attachments :=
                    attachInsert st1.mgr.attachments shmid attach_addr pid } })

/-- External collaborators of sys_shmdt: the result of aspace.unmap on the
attached range, and the wall-clock time. -/
structure DetachEnv where
  unmapOk : Bool
  time : Nat
deriving DecidableEq, Repr

/-- The sys_shmdt search over manager.attachments: the first segment id
whose attachment map binds this exact address to the calling process. -/
def findAttached (addr pid : Nat) :
    List (Int × List (Nat × Nat)) → Option Int
  | [] => none
  | (shmid, m) :: t =>
    match alLookup addr m with
    | some p => if p = pid then some shmid else findAttached addr pid t
    | none => findAttached addr pid t

/-- Remove one attachment record, dropping the per-segment map when it
becomes empty. -/
def attachRemove (atts : List (Int × List (Nat × Nat))) (shmid : Int)
    (addr : Nat) : List (Int × List (Nat × Nat)) :=
  match alLookup shmid atts with
  | none => atts
  | some m =>
    let m' := alRemove addr m
    if m'.isEmpty then alRemove shmid atts else alInsert shmid m' atts

/-- sys_shmdt (api shm module): reject address 0 and unaligned addresses
(EINVAL), find the segment attached at this address by this process (EINVAL
if none), remove the attachment record, unmap the range (EINVAL on failure,
with the record already removed), then decrement attach_count (saturating,
as in the source) and stamp detach_time; if the segment is marked for
removal and the count is now 0, remove the id-table entry and the
attachment records and free the physical backing with dealloc_shared. -/
def sys_shmdt (env : DetachEnv) (st : ShmSys) (pid : Nat) (shmaddr : Nat) :
    Except LinuxError Unit × ShmSys :=
  if shmaddr = 0 then (.error .EINVAL, st)
  else if shmaddr % 4096 ≠ 0 then (.error .EINVAL, st)
  else
    match findAttached shmaddr pid st.mgr.attachments with
    | none => (.error .EINVAL, st)
    | some shmid =>
      match alLookup shmid st.mgr.segments with
      | none => (.error .EINVAL, st)
      | some seg =>
        let st1 : ShmSys := { st with mgr := { st.mgr with
          attachments := attachRemove st.mgr.attachments shmid shmaddr } }
        if env.unmapOk = false then (.error .EINVAL, st1)
        else
          let seg1 : ShmSegment := { seg with
            attach_count := seg.attach_count - 1,
            detach_time := env.time }
          if seg1.marked_for_removal && decide (seg1.attach_count = 0) then
            (.ok (),
              { mgr := { segments := alRemove shmid st1.mgr.segments,
                         next_id := st1.mgr.next_id,
                         attachments := alRemove shmid st1.mgr.attachments },
                deallocCalls := st1.deallocCalls + 1 })
          else
            (.ok (), { st1 with mgr := { st1.mgr with
              segments := alInsert shmid seg1 st1.mgr.segments } })

/-- sys_shmctl with IPC_RMID (api shm module): look up the segment (EINVAL
if unknown), apply the owner check (vacuous, since the source hard-codes the
caller uid to 0), mark the segment for removal and stamp change_time; if
attach_count is already 0, immediately remove the id-table entry and the
attachment records - the source does NOT free the physical backing on this
path (a TODO comment stands where the deallocation would be), so
deallocCalls is unchanged; otherwise removal is left to the last detach. -/
def sys_shmctl_rmid (st : ShmSys) (time : Nat) (shmid : Int) :
    Except LinuxError Unit × ShmSys :=
  match alLookup shmid st.mgr.segments with
  | none => (.error .EINVAL, st)
  | some seg =>
    if decide (seg.owner_uid ≠ 0) && decide ((0 : Nat) ≠ 0) then
      (.error .EPERM, st)
    else
      let seg1 := { seg with marked_for_removal := true, change_time := time }
      let segs1 := alInsert shmid seg1 st.mgr.segments
      if seg.attach_count = 0 then
        (.ok (), { st with mgr :=
          { segments := alRemove shmid segs1,
            next_id := st.mgr.next_id,
            attachments := alRemove shmid st.mgr.attachments } })
      else
        (.ok (), { st with mgr := { st.mgr with segments := segs1 } })

theorem alLookup_alInsert_self {α β : Type} [DecidableEq α] (k : α) (v : β)
    (l : List (α × β)) : alLookup k (alInsert k v l) = some v := by
  induction l with
  | nil => simp [alInsert, alLookup]
  | cons p t ih =>
    obtain ⟨k', v'⟩ := p
    by_cases h : k = k'
    · simp [alInsert, alLookup, h]
    · simp [alInsert, alLookup, h, ih]

theorem shmatPhys_preserves (env : AttachEnv) (st : ShmSys) (shmid : Int)
    (seg : ShmSegment) (pa : Nat) (st1 : ShmSys)
    (h : shmatPhys env st shmid seg = some (pa, st1)) :
    st1.mgr.attachments = st.mgr.attachments ∧
    st1.deallocCalls = st.deallocCalls ∧
    st1.mgr.next_id = st.mgr.next_id := by
  unfold shmatPhys at h
  split at h
  · split at h
    · exact absurd h (by simp)
    · simp only [Option.some.injEq, Prod.mk.injEq] at h
      rcases h with ⟨_, rfl⟩
      exact ⟨rfl, rfl, rfl⟩
  · simp only [Option.some.injEq, Prod.mk.injEq] at h
    rcases h with ⟨_, rfl⟩
    exact ⟨rfl, rfl, rfl⟩

theorem findAttached_attachInsert (atts : List (Int × List (Nat × Nat)))
    (shmid : Int) (addr pid : Nat)
    (hfresh : ∀ p ∈ atts, alLookup addr p.2 = none) :
    findAttached addr pid (attachInsert atts shmid addr pid) = some shmid := by
  induction atts with
  | nil => simp [attachInsert, alLookup, findAttached]
  | cons p t ih =>
    obtain ⟨s, m⟩ := p
    have hm : alLookup addr m = none := hfresh (s, m) (by simp)
    have ht : ∀ q ∈ t, alLookup addr q.2 = none := fun q hq =>
      hfresh q (by simp [hq])
    by_cases hs : shmid = s
    · subst hs
      simp [attachInsert, alLookup, findAttached, alLookup_alInsert_self,
        alInsert]
    · cases hlt : alLookup shmid t with
      | some m' =>
        have hrw : attachInsert t shmid addr pid =
            alInsert shmid (alInsert addr pid m') t := by
          simp [attachInsert, hlt]
        simp only [attachInsert, alLookup, hs, if_neg hs, hlt, alInsert,
          findAttached, hm]
        rw [← hrw]
        exact ih ht
      | none =>
        have hrw : attachInsert t shmid addr pid = t ++ [(shmid, [(addr, pid)])] := by
          simp [attachInsert, hlt]
        simp only [attachInsert, alLookup, hs, if_neg hs, hlt,
          List.cons_append, findAttached, hm]
        rw [← hrw]
        exact ih ht


theorem sys_shmdt_ok (denv : DetachEnv) (st : ShmSys) (pid addr : Nat)
    (shmid : Int) (seg : ShmSegment)
    (haddr : addr ≠ 0) (halign : addr % 4096 = 0)
    (hfind : findAttached addr pid st.mgr.attachments = some shmid)
    (hlk : alLookup shmid st.mgr.segments = some seg)
    (hun : denv.unmapOk = true)
    (hnm : seg.marked_for_removal = false) :
    (sys_shmdt denv st pid addr).1 = .ok () ∧
    alLookup shmid (sys_shmdt denv st pid addr).2.mgr.segments =
      some { seg with
        attach_count := seg.attach_count - 1,
        detach_time := denv.time } := by
  have hal : ¬(addr % 4096 ≠ 0) := by simp [halign]
  simp only [sys_shmdt, if_neg haddr, if_neg hal, hfind, hlk, hun, hnm,
    Bool.true_eq_false, if_false, Bool.false_and, Bool.false_eq_true]
  exact ⟨trivial, alLookup_alInsert_self shmid _ _⟩

/-- C9: a successful sys_shmat on an existing, not-removal-pending segment,
followed with no interleaving operation by a sys_shmdt at the returned
address by the same process, succeeds: the attach raises attach_count by
exactly 1, and the detach locates the segment from the recorded attach
address and lowers attach_count by exactly 1, restoring its pre-attach value
(0 for a fresh segment). The hypotheses record the success of the attach,
that its address is a nonzero page-aligned address not previously recorded
in any attachment map (which the external find_free_area / map_linear
collaborators guarantee), and that the unmap succeeds. -/
theorem c9_attach_detach_roundtrip
    (env : AttachEnv) (denv : DetachEnv) (st st' : ShmSys) (pid : Nat)
    (shmid : Int) (shmaddr addr : Nat) (shmflg : Int) (seg : ShmSegment)
    (hlk : alLookup shmid st.mgr.segments = some seg)
    (hnr : seg.marked_for_removal = false)
    (hA : sys_shmat env st pid shmid shmaddr shmflg = (.ok addr, st'))
    (haddr : addr ≠ 0)
    (halign : addr % 4096 = 0)
    (hfresh : ∀ p ∈ st.mgr.attachments, alLookup addr p.2 = none)
    (hun : denv.unmapOk = true) :
    (∃ segA, alLookup shmid st'.mgr.segments = some segA ∧
      segA.attach_count = seg.attach_count + 1) ∧
    (sys_shmdt denv st' pid addr).1 = .ok () ∧
    (∃ segD, alLookup shmid (sys_shmdt denv st' pid addr).2.mgr.segments =
      some segD ∧ segD.attach_count = seg.attach_count) := by
  simp only [sys_shmat, hlk] at hA
  cases hperm : ShmSegment.check_permission seg 0 0
      (decide (Int.land shmflg SHM_RDONLY = 0)) with
  | false =>
    rw [hperm] at hA
    exact absurd hA (by simp)
  | true =>
    rw [hperm] at hA
    simp only [Bool.true_eq_false, if_false] at hA
    cases heqaddr : shmatAddr env shmaddr shmflg with
    | error e =>
      rw [heqaddr] at hA
      exact absurd hA (by simp)
    | ok attach_addr =>
      rw [heqaddr] at hA
      simp only [] at hA
      cases heqphys : shmatPhys env st shmid seg with
      | none =>
        rw [heqphys] at hA
        exact absurd hA (by simp)
      | some pr =>
        obtain ⟨pa, st1⟩ := pr
        rw [heqphys] at hA
        simp only [] at hA
        cases hmap : env.mapOk attach_addr with
        | false =>
          rw [hmap] at hA
          exact absurd hA (by simp)
        | true =>
          rw [hmap] at hA
          simp only [Bool.true_eq_false, if_false, Prod.mk.injEq,
            Except.ok.injEq] at hA
          obtain ⟨rfl, rfl⟩ := hA
          obtain ⟨hatts, hdc, hnid⟩ :=
            shmatPhys_preserves env st shmid seg pa st1 heqphys
          have hlkA : alLookup shmid
              (alInsert shmid
                { seg with
                  phys_addr := pa,
                  attach_count := seg.attach_count + 1,
                  attach_time := env.time } st1.mgr.segments) =
              some { seg with
                phys_addr := pa,
                attach_count := seg.attach_count + 1,
                attach_time := env.time } :=
            alLookup_alInsert_self shmid _ _
          have hfind : findAttached attach_addr pid
              (attachInsert st1.mgr.attachments shmid attach_addr pid) =
              some shmid := by
            rw [hatts]
            exact findAttached_attachInsert st.mgr.attachments shmid
              attach_addr pid hfresh
          obtain ⟨hres, hlkD⟩ := sys_shmdt_ok denv
            ⟨⟨alInsert shmid
                { seg with
                  phys_addr := pa,
                  attach_count := seg.attach_count + 1,
                  attach_time := env.time } st1.mgr.segments,
              st1.mgr.next_id,
              attachInsert st1.mgr.attachments shmid attach_addr pid⟩,
              st1.deallocCalls⟩
            pid attach_addr shmid
            { seg with
              phys_addr := pa,
              attach_count := seg.attach_count + 1,
              attach_time := env.time }
            haddr halign hfind hlkA hun hnr
          refine ⟨⟨_, hlkA, rfl⟩, hres, ⟨_, hlkD, ?_⟩⟩
          simp

/-- Concrete fresh segment for the c9 witness. -/
def c9seg : ShmSegment :=
  { key := 5, size := 4096, perm := 0o600, owner_uid := 0, owner_gid := 0,
    creator_uid := 0, creator_gid := 0, creator_pid := 1, last_pid := 1,
    attach_count := 0, change_time := 0, attach_time := 0, detach_time := 0,
    phys_addr := 0, marked_for_removal := false }

/-- Concrete manager state for the c9 witness. -/
def c9st : ShmSys :=
  { mgr := { segments := [(1, c9seg)], next_id := 2, attachments := [] },
    deallocCalls := 0 }

/-- Concrete attach environment for the c9 witness. -/
def c9env : AttachEnv :=
  { findFree := some 32768, mapOk := fun _ => true, allocShared := some 8192,
    time := 3 }

/-- Concrete detach environment for the c9 witness. -/
def c9denv : DetachEnv := { unmapOk := true, time := 9 }

/-- Witness for c9_attach_detach_roundtrip: attach then detach of a fresh
4096-byte segment restores attach_count to 0. -/
theorem c9_attach_detach_roundtrip_witness :
    (alLookup 1 c9st.mgr.segments = some c9seg ∧
     c9seg.marked_for_removal = false ∧
     sys_shmat c9env c9st 42 1 0 0 =
       (.ok 32768, (sys_shmat c9env c9st 42 1 0 0).2) ∧
     (32768 : Nat) ≠ 0 ∧
     (32768 : Nat) % 4096 = 0 ∧
     (∀ p ∈ c9st.mgr.attachments, alLookup 32768 p.2 = none) ∧
     c9denv.unmapOk = true) ∧
    ((∃ segA, alLookup 1 (sys_shmat c9env c9st 42 1 0 0).2.mgr.segments =
        some segA ∧ segA.attach_count = c9seg.attach_count + 1) ∧
     (sys_shmdt c9denv (sys_shmat c9env c9st 42 1 0 0).2 42 32768).1 =
       .ok () ∧
     (∃ segD, alLookup 1
        (sys_shmdt c9denv (sys_shmat c9env c9st 42 1 0 0).2 42
          32768).2.mgr.segments = some segD ∧
        segD.attach_count = c9seg.attach_count)) :=
  ⟨⟨by decide, by decide, by decide, by decide, by decide, by decide, rfl⟩,
   c9_attach_detach_roundtrip c9env c9denv c9st
     ((sys_shmat c9env c9st 42 1 0 0).2) 42 1 0 32768 0 c9seg
     (by decide) (by decide) (by decide) (by decide) (by decide) (by decide)
     rfl⟩

/-- Write-only segment (permission bits 200 octal: owner write, no read)
with already-allocated backing, for the c6 counterexample. -/
def c6seg : ShmSegment :=
  { key := 7, size := 4096, perm := 0o200, owner_uid := 0, owner_gid := 0,
    creator_uid := 0, creator_gid := 0, creator_pid := 1, last_pid := 1,
    attach_count := 0, change_time := 0, attach_time := 0, detach_time := 0,
    phys_addr := 4096, marked_for_removal := false }

/-- Manager state holding the write-only segment. -/
def c6st : ShmSys :=
  { mgr := { segments := [(1, c6seg)], next_id := 2, attachments := [] },
    deallocCalls := 0 }

/-- Attach environment for the c6 counterexample. -/
def c6env : AttachEnv :=
  { findFree := some 32768, mapOk := fun _ => true, allocShared := none,
    time := 3 }

/-- Counterexample to C6 as stated: for a segment whose mode grants the
owner write but not read permission, an attach without SHM_RDONLY succeeds
even though the caller lacks read permission (the read check, queried
directly, is false) - so sys_shmat does not verify read permission in the
writable case; it checks only the write bit. -/
theorem c6_write_only_attach_counterexample :
    (sys_shmat c6env c6st 10 1 0 0).1 = .ok 32768 ∧
    ShmSegment.check_permission c6seg 0 0 false = false := by decide

theorem shmatAddr_ne_eacces (env : AttachEnv) (shmaddr : Nat) (shmflg : Int) :
    shmatAddr env shmaddr shmflg ≠ .error .EACCES := by
  unfold shmatAddr
  split
  · cases env.findFree <;> simp
  · split <;> (simp only []; split <;> simp)

/-- C6 (amended): sys_shmat performs a single permission check against the
hard-coded caller uid 0 / gid 0: the write bit when SHM_RDONLY is absent,
the read bit when it is present - read permission is not verified for a
writable attach. An attach failing this check fails with EACCES and leaves
the whole manager state (hence the segment and the caller's address space)
unchanged, and EACCES arises only from this check; for a caller matching
owner_uid, the writable-attach check is exactly the owner write bit. -/
theorem c6_single_bit_permission_gate
    (env : AttachEnv) (st : ShmSys) (pid : Nat) (shmid : Int)
    (shmaddr : Nat) (shmflg : Int) (seg : ShmSegment)
    (hlk : alLookup shmid st.mgr.segments = some seg) :
    (ShmSegment.check_permission seg 0 0
        (decide (Int.land shmflg SHM_RDONLY = 0)) = false →
      sys_shmat env st pid shmid shmaddr shmflg = (.error .EACCES, st)) ∧
    ((sys_shmat env st pid shmid shmaddr shmflg).1 = .error .EACCES ↔
      ShmSegment.check_permission seg 0 0
        (decide (Int.land shmflg SHM_RDONLY = 0)) = false) ∧
    (∀ gid : Nat, ShmSegment.check_permission seg seg.owner_uid gid true =
      decide ((seg.perm >>> 6) &&& 0o7 &&& 0o2 ≠ 0)) := by
  refine ⟨?_, ?_, ?_⟩
  · intro hperm
    simp [sys_shmat, hlk, hperm]
  · cases hperm : ShmSegment.check_permission seg 0 0
        (decide (Int.land shmflg SHM_RDONLY = 0)) with
    | false =>
      simp [sys_shmat, hlk, hperm]
    | true =>
      simp only [sys_shmat, hlk, hperm, Bool.true_eq_false, if_false,
        Bool.false_eq_true, iff_false]
      cases ha : shmatAddr env shmaddr shmflg with
      | error e =>
        have hne := shmatAddr_ne_eacces env shmaddr shmflg
        rw [ha] at hne
        simp only [ne_eq, Except.error.injEq] at hne
        simp [hne]
      | ok attach_addr =>
        cases hp : shmatPhys env st shmid seg with
        | none => simp
        | some pr =>
          obtain ⟨pa, st1⟩ := pr
          cases hm : env.mapOk attach_addr <;> simp [hm]
  · intro gid
    unfold ShmSegment.check_permission
    rw [if_pos rfl]
    simp

/-- Witness for c6_single_bit_permission_gate: a mode-0 segment, for which
the check fails and the attach returns EACCES with the state unchanged. -/
theorem c6_single_bit_permission_gate_witness :
    (alLookup 1
      (ShmSys.mk (ShmManager.mk
        [(1, { c6seg with perm := 0 })] 2 []) 0).mgr.segments =
      some { c6seg with perm := 0 }) ∧
    ((ShmSegment.check_permission { c6seg with perm := 0 } 0 0
        (decide (Int.land 0 SHM_RDONLY = 0)) = false →
      sys_shmat c6env
        (ShmSys.mk (ShmManager.mk [(1, { c6seg with perm := 0 })] 2 []) 0)
        10 1 0 0 =
        (.error .EACCES,
          ShmSys.mk (ShmManager.mk
            [(1, { c6seg with perm := 0 })] 2 []) 0)) ∧
    ((sys_shmat c6env
        (ShmSys.mk (ShmManager.mk [(1, { c6seg with perm := 0 })] 2 []) 0)
        10 1 0 0).1 = .error .EACCES ↔
      ShmSegment.check_permission { c6seg with perm := 0 } 0 0
        (decide (Int.land 0 SHM_RDONLY = 0)) = false) ∧
    (∀ gid : Nat, ShmSegment.check_permission { c6seg with perm := 0 }
        { c6seg with perm := 0 }.owner_uid gid true =
      decide (({ c6seg with perm := 0 }.perm >>> 6) &&& 0o7 &&& 0o2 ≠ 0))) :=
  ⟨by decide,
   c6_single_bit_permission_gate c6env
     (ShmSys.mk (ShmManager.mk [(1, { c6seg with perm := 0 })] 2 []) 0)
     10 1 0 0 { c6seg with perm := 0 } (by decide)⟩

/-- Segment with allocated physical backing and no attachments, for the c5
evaluation. -/
def c5seg : ShmSegment :=
  { key := 9, size := 4096, perm := 0o600, owner_uid := 0, owner_gid := 0,
    creator_uid := 0, creator_gid := 0, creator_pid := 1, last_pid := 1,
    attach_count := 0, change_time := 0, attach_time := 0, detach_time := 0,
    phys_addr := 4096, marked_for_removal := false }

/-- Manager state holding that segment. -/
def c5st : ShmSys :=
  { mgr := { segments := [(1, c5seg)], next_id := 2, attachments := [] },
    deallocCalls := 0 }

/-- Attach environment for the c5 deferred-path evaluation. -/
def c5env : AttachEnv :=
  { findFree := some 32768, mapOk := fun _ => true, allocShared := some 8192,
    time := 3 }

/-- Detach environment for the c5 deferred-path evaluation. -/
def c5denv : DetachEnv := { unmapOk := true, time := 9 }

/-- C5 evaluation at the failing input: IPC_RMID on a segment with allocated
physical backing and attach_count 0 succeeds and removes the id-table entry,
but performs no deallocation of the backing (deallocCalls stays 0, where the
claim requires the backing to be freed immediately by the remove); the
deferred path - attach, then IPC_RMID, then the last detach - does free the
backing exactly once. -/
theorem c5_rmid_leak_eval :
    (sys_shmctl_rmid c5st 5 1).1 = .ok () ∧
    alLookup 1 (sys_shmctl_rmid c5st 5 1).2.mgr.segments = none ∧
    (sys_shmctl_rmid c5st 5 1).2.deallocCalls = 0 ∧
    (sys_shmdt c5denv
      (sys_shmctl_rmid (sys_shmat c5env c5st 42 1 0 0).2 5 1).2 42
      32768).2.deallocCalls = 1 := by decide

/-- Rust str trim: drop leading and trailing whitespace. -/
def trimChars (l : List Char) : List Char :=
  ((l.dropWhile Char.isWhitespace).reverse.dropWhile Char.isWhitespace).reverse

/-- Accumulator-passing core of split_whitespace. -/
def splitWSAux : List Char → List Char → List (List Char)
  | [], acc => if acc.isEmpty then [] else [acc.reverse]
  | c :: t, acc =>
    if c.isWhitespace then
      if acc.isEmpty then splitWSAux t [] else acc.reverse :: splitWSAux t []
    else splitWSAux t (c :: acc)

/-- Rust str split_whitespace: maximal non-whitespace runs, in order. -/
def splitWhitespaceChars (l : List Char) : List (List Char) := splitWSAux l []

/-- Rust str rsplit_once: split at the LAST occurrence of the separator,
returning the parts before and after it; none when the separator is
absent. -/
def rsplitOnce (sep : Char) : List Char → Option (List Char × List Char)
  | [] => none
  | c :: t =>
    match rsplitOnce sep t with
    | some (pre, post) => some (c :: pre, post)
    | none => if c = sep then some ([], t) else none

/-- path.rsplit_once of the slash with map_or: the final path component, or
the whole path when it contains no slash (used for argv[0] in both the
PT_INTERP and the shebang chain). -/
def basename (s : String) : String :=
  match rsplitOnce '/' s.data with
  | some (_, name) => String.mk name
  | none => s

/-- The fixed interpreter translation table (SUPPORTED_INTERPRETERS in the
execve module). -/
def SUPPORTED_INTERPRETERS : List String :=
  ["/lib/ld-linux-riscv64-lp64.so.1",
   "/lib64/ld-linux-loongarch-lp64d.so.1",
   "/lib64/ld-linux-x86-64.so.2",
   "/lib/ld-linux-aarch64.so.1",
   "/lib/ld-linux-riscv64-lp64d.so.1",
   "/lib/ld-musl-riscv64-sf.so.1",
   "/lib/ld-musl-riscv64.so.1",
   "/lib64/ld-musl-loongarch-lp64d.so.1"]

/-- The single canonical runtime library path (MUSL_LIBC_PATH). -/
def MUSL_LIBC_PATH : String := "/musl/lib/libc.so"

/-- The interpreter-path translation chain in load_elf (core mm module):
each of the eight known dynamic-linker paths is replaced by the canonical
musl libc path; any other path is kept unchanged. -/
def translate_interp (p : String) : String :=
  if p = "/lib/ld-linux-riscv64-lp64.so.1"
      ∨ p = "/lib64/ld-linux-loongarch-lp64d.so.1"
      ∨ p = "/lib64/ld-linux-x86-64.so.2"
      ∨ p = "/lib/ld-linux-aarch64.so.1"
      ∨ p = "/lib/ld-linux-riscv64-lp64d.so.1"
      ∨ p = "/lib/ld-musl-riscv64-sf.so.1"
      ∨ p = "/lib/ld-musl-riscv64.so.1"
      ∨ p = "/lib64/ld-musl-loongarch-lp64d.so.1"
  then MUSL_LIBC_PATH else p

/-- The PT_INTERP redirection step of load_elf: translate the canonicalized
interpreter path, set argv[0] to the translated path's basename, and keep
all original arguments after it in order; the pair is the (path, argument
list) of the recursive load_user_app call. -/
def elf_interp_redirect (canon_path : String) (args : List String) :
    String × List String :=
  let interp_path := translate_interp canon_path
  let interp_name := basename interp_path
  (interp_path, interp_name :: args)

/-- C7: for an ELF whose canonicalized PT_INTERP path is one of the eight
known dynamic-linker paths of the fixed translation table, the loader
recurses on the canonical runtime library path /musl/lib/libc.so instead of
the named interpreter, with argv[0] replaced by that path's basename
libc.so and the original arguments preserved in order after it. -/
theorem c7_interp_translation (p : String) (args : List String)
    (hp : p ∈ SUPPORTED_INTERPRETERS) :
    elf_interp_redirect p args = ("/musl/lib/libc.so", "libc.so" :: args) := by
  have ht : translate_interp p = "/musl/lib/libc.so" := by
    fin_cases hp <;> decide
  have hb : basename "/musl/lib/libc.so" = "libc.so" := by decide
  simp only [elf_interp_redirect, ht, hb]

/-- Witness for c7_interp_translation: the riscv64 musl linker path. -/
theorem c7_interp_translation_witness :
    ("/lib/ld-musl-riscv64.so.1" ∈ SUPPORTED_INTERPRETERS) ∧
    elf_interp_redirect "/lib/ld-musl-riscv64.so.1" ["/bin/app", "x"] =
      ("/musl/lib/libc.so", "libc.so" :: ["/bin/app", "x"]) :=
  ⟨by decide,
   c7_interp_translation "/lib/ld-musl-riscv64.so.1" ["/bin/app", "x"]
     (by decide)⟩

/-- load_script (core mm module), up to its recursive call: parse the
shebang line (bytes 2..min(len,256) up to the first newline, trimmed; bytes
are modelled as characters), split it on whitespace into the interpreter
path and its arguments, and build the interpreter invocation: interpreter
basename, then the shebang arguments, then the script path, then the
original arguments with the first dropped. Returns the (path, argument
list) of the recursive load_user_app call, or none on the InvalidData
paths. -/
def load_script_call (script_path : String) (args : List String)
    (file_data : List Char) : Option (String × List String) :=
  let head := (file_data.drop 2).take 254
  let pos := (head.findIdx? (fun c => c = '\n')).getD head.length
  let shebang_line := trimChars (head.take pos)
  if shebang_line.isEmpty then none
  else
    match splitWhitespaceChars shebang_line with
    | [] => none
    | ip :: rest =>
      let interpreter_path := String.mk ip
      let interpreter_name := basename interpreter_path
      some (interpreter_path,
        interpreter_name :: (rest.map String.mk ++
          (script_path :: args.drop 1)))

/-- C8: for a script file beginning with the line naming /bin/sh and the -e
flag, loaded with arguments [script, a, b], the script loader recurses on
the interpreter path /bin/sh with argument list [sh, -e, script, a, b]:
interpreter basename, shebang argument, script path, then the original
arguments with the first dropped. -/
theorem c8_shebang_args :
    load_script_call "script" ["script", "a", "b"]
      ("#!/bin/sh -e\nrest of file".data) =
      some ("/bin/sh", ["sh", "-e", "script", "a", "b"]) := by decide

/-- Executable file format as classified by detect_file_format. -/
inductive FileFormat
  | Script
  | Elf
  | Invalid
deriving DecidableEq, Repr

/-- The four ELF magic bytes, as characters (bytes are modelled as
characters throughout the loader embedding). -/
def elfMagic : List Char := [Char.ofNat 0x7f, 'E', 'L', 'F']

/-- detect_file_format (execve module): shebang prefix means Script, ELF
magic means Elf, anything else Invalid. -/
def detect_file_format (data : List Char) : FileFormat :=
  if data.take 2 = ['#', '!'] then .Script
  else if data.take 4 = elfMagic then .Elf
  else .Invalid

/-- Result of the external xmas_elf parse of an ELF image: its entry point
and, when a PT_INTERP segment exists, the decoded interpreter path (CStr
and UTF-8 decoding failures are folded into a none parse result). -/
structure ElfParsed where
  entry : Nat
  interp : Option String

/-- External collaborators of sys_execve: the ELF parser, path
canonicalization, existence checks, and the outcome of the actual loading
work performed after the empty-argv check. -/
structure ExecEnv where
  parseElf : List Char → Option ElfParsed
  canonicalize : String → Option String
  absolute_path_exists : String → Bool
  loadOk : Bool

/-- parse_shebang (execve validation module): requires the shebang prefix,
takes bytes 2..min(len,256) up to the first newline, trims it, and returns
the first whitespace-separated token; ENOEXEC on every failure. -/
def parse_shebang (file_data : List Char) : Except LinuxError String :=
  if file_data.take 2 ≠ ['#', '!'] then .error .ENOEXEC
  else
    let head := (file_data.drop 2).take 254
    let pos := (head.findIdx? (fun c => c = '\n')).getD head.length
    let shebang_line := trimChars (head.take pos)
    if shebang_line.isEmpty then .error .ENOEXEC
    else
      match splitWhitespaceChars shebang_line with
      | [] => .error .ENOEXEC
      | ip :: _ => .ok (String.mk ip)

/-- validate_script: the shebang interpreter must parse and exist. -/
def validate_script (env : ExecEnv) (file_data : List Char) :
    Except LinuxError Unit :=
  match parse_shebang file_data with
  | .error e => .error e
  | .ok interpreter_path =>
    if env.absolute_path_exists interpreter_path then .ok ()
    else .error .ENOENT

/-- resolve_interpreter_path: table paths map to the canonical musl libc
path, others stay. -/
def resolve_interpreter_path (interp_path : String) : String :=
  if interp_path ∈ SUPPORTED_INTERPRETERS then MUSL_LIBC_PATH
  else interp_path

/-- validate_elf: ELF magic, parseable image, nonzero entry point and - when
a PT_INTERP exists - a canonicalizable interpreter path whose resolved form
exists. -/
def validate_elf (env : ExecEnv) (file_data : List Char) :
    Except LinuxError Unit :=
  if file_data.take 4 ≠ elfMagic then .error .ENOEXEC
  else
    match env.parseElf file_data with
    | none => .error .ENOEXEC
    | some elf =>
      if elf.entry = 0 then .error .ENOEXEC
      else
        match elf.interp with
        | none => .ok ()
        | some interp_str =>
          match env.canonicalize interp_str with
          | none => .error .ENOENT
          | some canonical_path =>
            if env.absolute_path_exists
                (resolve_interpreter_path canonical_path) then .ok ()
            else .error .ENOENT

/-- The validation dispatch of sys_execve on the detected format. -/
def validate_exec (env : ExecEnv) (fd : List Char) : Except LinuxError Unit :=
  match detect_file_format fd with
  | .Script => validate_script env fd
  | .Elf => validate_elf env fd
  | .Invalid => .error .ENOEXEC

/-- sys_execve (execve module), as a state trace whose Bool component
records whether unmap_user_areas has been invoked: multi-threaded processes
are rejected (EAGAIN); an unreadable file is ENOENT; an invalid format is
ENOEXEC; then the format-specific validation runs - all BEFORE
unmap_user_areas. Only then is the address space cleared and
load_executable called, whose very first step (load_user_app / load_elf)
rejects an empty argv with an error that execve surfaces as ENOEXEC; any
other load failure also surfaces as ENOEXEC. -/
def sys_execve_model (env : ExecEnv) (multi_threaded : Bool)
    (file_data? : Option (List Char)) (args : List String) :
    Except LinuxError Unit × Bool :=
  if multi_threaded then (.error .EAGAIN, false)
  else
    match file_data? with
    | none => (.error .ENOENT, false)
    | some file_data =>
      if detect_file_format file_data = .Invalid then (.error .ENOEXEC, false)
      else
        match validate_exec env file_data with
        | .error e => (.error e, false)
        | .ok () =>
          if args.isEmpty then (.error .ENOEXEC, true)
          else ((if env.loadOk then .ok () else .error .ENOEXEC), true)

/-- Environment in which every external check succeeds (a well-formed
static ELF on a healthy file system). -/
def c1env : ExecEnv :=
  { parseElf := fun _ => some ⟨1, none⟩,
    canonicalize := fun s => some s,
    absolute_path_exists := fun _ => true,
    loadOk := true }

/-- Environment whose file system lacks every path (unresolved
interpreter). -/
def c1benv : ExecEnv :=
  { parseElf := fun _ => some ⟨1, none⟩,
    canonicalize := fun s => some s,
    absolute_path_exists := fun _ => false,
    loadOk := true }

/-- A minimal shebang script. -/
def c1scriptData : List Char := "#!/bin/sh\n".data

/-- Counterexample to C1 as stated: for a valid ELF image and an EMPTY argv
list, sys_execve returns an error, but only AFTER unmap_user_areas has run
(the trace flag is true): the zero-length-argv check lives inside
load_user_app / load_elf, which sys_execve calls after clearing the address
space, so the caller's original image does not survive this failed load. -/
theorem c1_empty_argv_counterexample :
    sys_execve_model c1env false (some elfMagic) [] =
      (.error .ENOEXEC, true) := by decide

/-- C1 (amended): an unreadable file, an invalid image format, or a failing
format validation (unresolved interpreter included) each abort sys_execve
with an error BEFORE unmap_user_areas is invoked, preserving the caller's
address space; a zero-length argv also yields an error, but it is detected
only inside the loader, AFTER unmap_user_areas has already torn down the
caller's address space. -/
theorem c1_validation_before_unmap (env : ExecEnv) (mt : Bool)
    (fd? : Option (List Char)) (args : List String) :
    ((fd? = none ∨ (∃ fd, fd? = some fd ∧
        (detect_file_format fd = .Invalid ∨
         ∃ e, validate_exec env fd = .error e))) →
      ((sys_execve_model env mt fd? args).1 ≠ .ok () ∧
       (sys_execve_model env mt fd? args).2 = false)) ∧
    (∀ fd, mt = false → fd? = some fd →
      detect_file_format fd ≠ .Invalid →
      validate_exec env fd = .ok () → args = [] →
      sys_execve_model env mt fd? args = (.error .ENOEXEC, true)) := by
  constructor
  · intro h
    cases mt with
    | true => exact ⟨by simp [sys_execve_model], by simp [sys_execve_model]⟩
    | false =>
      rcases h with h | ⟨fd, rfl, h⟩
      · subst h
        exact ⟨by simp [sys_execve_model], by simp [sys_execve_model]⟩
      · rcases h with h | ⟨e, h⟩
        · constructor <;> simp [sys_execve_model, h]
        · by_cases hinv : detect_file_format fd = FileFormat.Invalid
          · constructor <;> simp [sys_execve_model, hinv]
          · constructor <;> simp [sys_execve_model, hinv, h]
  · intro fd hmt hfd hinv hval hargs
    subst hmt
    subst hfd
    subst hargs
    simp [sys_execve_model, hinv, hval]

/-- Witness for c1_validation_before_unmap: an unresolved script
interpreter aborts before unmap (first conjunct), and the empty-argv error
of a valid ELF comes only after unmap (second conjunct). -/
theorem c1_validation_before_unmap_witness :
    ((sys_execve_model c1benv false (some c1scriptData) ["x"]).1 ≠ .ok () ∧
     (sys_execve_model c1benv false (some c1scriptData) ["x"]).2 = false) ∧
    sys_execve_model c1env false (some elfMagic) [] =
      (.error .ENOEXEC, true) :=
  ⟨(c1_validation_before_unmap c1benv false (some c1scriptData) ["x"]).1
     (Or.inr ⟨c1scriptData, rfl, Or.inr ⟨.ENOENT, by decide⟩⟩),
   (c1_validation_before_unmap c1env false (some elfMagic) []).2 elfMagic
     rfl rfl (by decide) (by decide) rfl⟩
